import Mathlib

/-!
Verification of the zksync-rss backend core against its specification.

The definitions below are a shallow embedding of the TypeScript sources:
  * `packages/backend/entry/processBlockRange.ts` — the adaptive range
    collector (`collectEventsWithAdaptiveRange`), the per-network processing
    state store (`updateState`), and the state writes performed by
    `processBlockRangeForNetwork`;
  * `packages/backend/rss/utils.ts` — the RSS feed manager
    (`parseEventDate`, `getEventGuid`, `addEvent`, `generate`,
    `updateRSSFeed`).

Modelling conventions:
  * JavaScript numbers that hold block counters are natural numbers; dates
    are `Int` values of milliseconds since the epoch (the value wrapped by a
    JS `Date`).
  * `async`/`await`, logging and `sleep` pacing do not affect the data flow
    and are dropped; retry delays are modelled by the pure `retryDelay`
    function they compute.
  * a fallible fetch (`monitorEventsInRange`, which either resolves with a
    list of parsed events or throws) is a function
    `Nat → Nat → Except String (List ParsedEvent)`; the `String` is the
    thrown error's message.
  * JavaScript's stable `Array.prototype.sort` is modelled by a stable
    insertion sort (`insertionSort` below); for a transitive total Boolean
    comparison both produce the unique stable sorted arrangement.
  * the loop of `collectEventsWithAdaptiveRange` is modelled with an explicit
    fuel parameter; `go_isSome` proves that the fuel computed by
    `collectEventsWithAdaptiveRange` always suffices, so the embedded
    collector is total exactly like the source loop.
  * `keccak256` (an opaque cryptographic hash from ethers) and JS
    `Date.parse` on textual dates are taken as parameters of the feed-manager
    definitions; every theorem about them holds for all instantiations, and
    concrete instantiations use an injective stand-in.
-/

namespace ZksyncRss

/-! ## Stable sorting primitives (model of JS `Array.prototype.sort`) -/

/-- Lexicographic comparison of char lists by code point, used to model
JS string comparison (`localeCompare` on the ASCII hex strings this system
compares agrees with code-point order). -/
def charListLe : List Char → List Char → Bool
  | [], _ => true
  | _ :: _, [] => false
  | a :: as, b :: bs =>
    if a.toNat < b.toNat then true
    else if b.toNat < a.toNat then false
    else charListLe as bs

/-- Code-point comparison on strings. -/
def strLe (a b : String) : Bool := charListLe a.data b.data

/-- Insert an element in front of the first entry it compares `le` to;
auxiliary step of the stable sort. -/
def orderedInsert (le : α → α → Bool) (a : α) : List α → List α
  | [] => [a]
  | b :: bs => if le a b then a :: b :: bs else b :: orderedInsert le a bs

/-- Stable insertion sort; models JS `Array.prototype.sort`, which is
required to be stable and to sort with respect to the comparator. -/
def insertionSort (le : α → α → Bool) : List α → List α
  | [] => []
  | a :: as => orderedInsert le a (insertionSort le as)

/-! ## Adaptive range collector (packages/backend/entry/processBlockRange.ts) -/

/-- `RETRY_DELAY_BASE` (line 44): "Base delay for exponential backoff when
retrying segments". -/
def RETRY_DELAY_BASE : Nat := 5000

/-- `MAX_SEGMENT_ATTEMPTS` (line 45): maximum retries per segment before
giving up. -/
def MAX_SEGMENT_ATTEMPTS : Nat := 3

/-- `MIN_SEGMENT_SPAN` (line 46): minimum block span before splitting stops. -/
def MIN_SEGMENT_SPAN : Nat := 10

/-- The fields of `ParsedEvent` (shared/types) that the collector and feed
manager read; the decoded-ABI payload fields (`interface`, `rawData`,
`decodedData`, `args`) are never inspected by the code under verification
and are omitted. -/
structure ParsedEvent where
  address : String
  eventName : String
  title : String
  link : String
  txhash : String
  blocknumber : Nat
  timestamp : String
  proposalLink : String
  networkName : String
  chainId : Nat
deriving Repr, DecidableEq

/-- `Segment` (processBlockRange.ts lines 22-26): a candidate block
sub-range with its retry counter. -/
structure Segment where
  «from» : Nat
  «to» : Nat
  attempt : Nat
deriving Repr, DecidableEq

/-- One entry of the `failedSegments` lists
(`{ from: number; to: number; error: string }`). -/
structure FailedSegment where
  «from» : Nat
  «to» : Nat
  error : String
deriving Repr, DecidableEq

/-- Return value of `collectEventsWithAdaptiveRange` (line 132). -/
structure CollectResult where
  events : List ParsedEvent
  apiCalls : Nat
  failedSegments : List FailedSegment
deriving Repr, DecidableEq

/-- The comparator of `collected.sort` (lines 211-216): block number
ascending, ties by transaction hash (`localeCompare`, code-point order on
these hex strings). -/
def eventLe (a b : ParsedEvent) : Bool :=
  decide (a.blocknumber < b.blocknumber) ||
    (decide (a.blocknumber = b.blocknumber) && strLe a.txhash b.txhash)

/-- The midpoint split of a failed segment (lines 170-177): children
`[from, mid]` and `[mid+1, to]`, attempt counters reset to 0. -/
def splitSegment (s : Segment) : Segment × Segment :=
  let mid := (s.«from» + s.«to») / 2
  ({ «from» := s.«from», «to» := mid, attempt := 0 },
   { «from» := mid + 1, «to» := s.«to», attempt := 0 })

/-- The backoff delay computed at line 184:
`RETRY_DELAY_BASE * (segment.attempt + 1)` milliseconds before retry number
`attempt + 1`. -/
def retryDelay (attempt : Nat) : Nat := RETRY_DELAY_BASE * (attempt + 1)

/-- The `while (segments.length > 0)` loop of
`collectEventsWithAdaptiveRange` (lines 142-218), with the final sort of the
collected events folded into the empty-queue exit. `fetch` stands for
`monitorEventsInRange` on the fixed network config; `fuel` bounds the number
of loop iterations and `go_isSome` below shows the caller always passes
enough. -/
def go (fetch : Nat → Nat → Except String (List ParsedEvent)) :
    Nat → List Segment → List ParsedEvent → Nat → List FailedSegment → Option CollectResult
  | 0, _, _, _, _ => none
  | _ + 1, [], collected, apiCalls, failed =>
    some ⟨insertionSort eventLe collected, apiCalls, failed⟩
  | fuel + 1, segment :: rest, collected, apiCalls, failed =>
    if segment.«to» < segment.«from» then
      go fetch fuel rest collected apiCalls failed
    else
      match fetch segment.«from» segment.«to» with
      | Except.ok events => go fetch fuel rest (collected ++ events) (apiCalls + 1) failed
      | Except.error msg =>
        if MIN_SEGMENT_SPAN < segment.«to» - segment.«from» ∧
            segment.«from» < (segment.«from» + segment.«to») / 2 ∧
            (segment.«from» + segment.«to») / 2 < segment.«to» then
          go fetch fuel
            ((splitSegment segment).1 :: (splitSegment segment).2 :: rest)
            collected apiCalls failed
        else if segment.attempt + 1 ≤ MAX_SEGMENT_ATTEMPTS then
          go fetch fuel ({ segment with attempt := segment.attempt + 1 } :: rest)
            collected apiCalls failed
        else
          go fetch fuel rest collected apiCalls
            (failed ++ [⟨segment.«from», segment.«to», msg⟩])

/-- Termination measure for one pending segment: decreases on a skip, a
successful fetch, a midpoint split, a retry and an abandonment. -/
def segMeasure (s : Segment) : Nat :=
  if s.«from» ≤ s.«to» then
    8 * (2 * (s.«to» - s.«from» + 1) - 1) +
      (MAX_SEGMENT_ATTEMPTS - min s.attempt MAX_SEGMENT_ATTEMPTS) + 1
  else 1

/-- Termination measure for the whole work list. -/
def queueMeasure (segs : List Segment) : Nat := (segs.map segMeasure).sum

/-- `collectEventsWithAdaptiveRange` (lines 127-219): early return for an
inverted range, otherwise run the work-list loop seeded with the whole
range, with enough fuel for every reachable iteration. -/
def collectEventsWithAdaptiveRange
    (fetch : Nat → Nat → Except String (List ParsedEvent))
    (startBlock endBlock : Nat) : Option CollectResult :=
  if endBlock < startBlock then some ⟨[], 0, []⟩
  else
    go fetch (queueMeasure [⟨startBlock, endBlock, 0⟩] + 1)
      [⟨startBlock, endBlock, 0⟩] [] 0 []

/-! ## Processing state store (`updateState`, lines 330-375) -/

/-- The JS Map key `` `${item.from}-${item.to}` `` (line 354); decimal
rendering of the two naturals makes the string key and the pair carry the
same information. -/
def segKey (fs : FailedSegment) : Nat × Nat := (fs.«from», fs.«to»)

/-- The first-occurrence-wins key dedup loop of lines 352-358 (`Map.has`
check before `Map.set`, then `Array.from(unique.values())`). -/
def dedupeGo : List FailedSegment → List (Nat × Nat) → List FailedSegment
  | [], _ => []
  | x :: xs, seen =>
    if segKey x ∈ seen then dedupeGo xs seen
    else x :: dedupeGo xs (segKey x :: seen)

/-- Dedup of a combined failed-segment list by `(from, to)` key. -/
def dedupeByKey (l : List FailedSegment) : List FailedSegment := dedupeGo l []

/-- A stored per-network `ProcessingState` record (lines 27-37). Every field
is optional because the error-path write of `processBlockRangeForNetwork`
can create a record that lacks `lastProcessedBlock` and the interface's
other fields are declared optional; `lastUpdated` is always (re)written. -/
structure ProcessingState where
  lastProcessedBlock : Option Nat
  hasError : Option Bool
  lastError : Option String
  lastUpdated : String
  retryCount : Option Nat
  consecutiveFailures : Option Nat
  apiCallCount : Option Nat
  failedSegments : Option (List FailedSegment)
deriving Repr, DecidableEq

/-- A `Partial<ProcessingState>` argument to `updateState`. The outer
`Option` of each field records whether the key is present in the object
literal; for `lastError` the success-path call site passes the key with a
possibly-`undefined` value (`failedSegments[0]?.error`), hence the
two-level `Option`. -/
structure StateUpdate where
  lastProcessedBlock : Option Nat := none
  hasError : Option Bool := none
  lastError : Option (Option String) := none
  retryCount : Option Nat := none
  consecutiveFailures : Option Nat := none
  apiCallCount : Option Nat := none
  failedSegments : Option (List FailedSegment) := none
deriving Repr, DecidableEq

/-- JS object-spread override `{...existing, ...state}` for one field: the
incoming value wins when its key is present. -/
def overrideField (ex inc : Option α) : Option α :=
  match inc with
  | some v => some v
  | none => ex

/-- `updateState` (lines 330-375) restricted to the record of the network
being written (the map holding other networks' records is untouched by the
merge logic). `existing = none` models a network with no prior record;
`now` is the `lastUpdated` timestamp string. -/
def updateState (existing : Option ProcessingState) (state : StateUpdate)
    (now : String) : ProcessingState :=
  let exFailed : Option (List FailedSegment) := existing.bind (·.failedSegments)
  let mergedFailedSegments : Option (List FailedSegment) :=
    match state.failedSegments with
    | some newSegs =>
      if newSegs.isEmpty then some []
      else
        match exFailed with
        | some exSegs =>
          if exSegs.isEmpty then some newSegs
          else some (dedupeByKey (exSegs ++ newSegs))
        | none => some newSegs
    | none => exFailed
  { lastProcessedBlock :=
      overrideField (existing.bind (·.lastProcessedBlock)) state.lastProcessedBlock
    hasError := overrideField (existing.bind (·.hasError)) state.hasError
    lastError :=
      match state.lastError with
      | some v => v
      | none => existing.bind (·.lastError)
    lastUpdated := now
    retryCount := overrideField (existing.bind (·.retryCount)) state.retryCount
    consecutiveFailures :=
      overrideField (existing.bind (·.consecutiveFailures)) state.consecutiveFailures
    apiCallCount := overrideField (existing.bind (·.apiCallCount)) state.apiCallCount
    failedSegments := mergedFailedSegments }

/-- The partial state written on the success path of
`processBlockRangeForNetwork` (lines 252-259). -/
def successUpdate (endBlock : Nat) (r : CollectResult) : StateUpdate :=
  { lastProcessedBlock := some endBlock
    hasError := some (decide (0 < r.failedSegments.length))
    lastError := some (r.failedSegments.head?.map (·.error))
    consecutiveFailures := some r.failedSegments.length
    apiCallCount := some r.apiCalls
    failedSegments := some r.failedSegments }

/-- The partial state written on the catch path of
`processBlockRangeForNetwork` (lines 311-315); `errorCount` is
`record.errors.length`. Note that no `lastProcessedBlock` key is passed. -/
def errorUpdate (message : String) (errorCount : Nat) : StateUpdate :=
  { hasError := some true
    lastError := some (some message)
    consecutiveFailures := some errorCount }

/-- The state write `processBlockRangeForNetwork` performs for a run over
`[startBlock, endBlock]` (with `skipStateUpdate = false`): the success-path
write when collection returned, the catch-path write when it threw. -/
def processRunStateWrite (existing : Option ProcessingState) (endBlock : Nat)
    (outcome : Except String CollectResult) (errorCount : Nat)
    (now : String) : ProcessingState :=
  match outcome with
  | Except.ok r => updateState existing (successUpdate endBlock r) now
  | Except.error msg => updateState existing (errorUpdate msg errorCount) now

/-! ## RSS feed manager (packages/backend/rss/utils.ts) -/

/-- `s.toLowerCase()`, applied per character. -/
def toLowerStr (s : String) : String := ⟨s.data.map Char.toLower⟩

/-- `s.replace(/\s+/g, "")`: remove every whitespace character. -/
def stripWhitespace (s : String) : String :=
  ⟨s.data.filter (fun c => !c.isWhitespace)⟩

/-- Leading/trailing whitespace trim, as performed by JS `Number(string)`
before reading the numeric literal. -/
def trimStr (s : String) : String :=
  ⟨(s.data.dropWhile Char.isWhitespace).reverse.dropWhile Char.isWhitespace |>.reverse⟩

/-- Value of a non-empty all-digit character list, else `none`. -/
def digitsVal (cs : List Char) : Option Nat :=
  if cs.isEmpty then none
  else
    cs.foldl
      (fun acc c =>
        match acc with
        | none => none
        | some n => if c.isDigit then some (n * 10 + (c.toNat - 48)) else none)
      (some 0)

/-- JS `Number(string)` on the timestamp strings this system produces
(`String(timestamp)` of a block's Unix seconds, or free-form text):
whitespace is trimmed, the empty string is `0`, an optional sign followed by
decimal digits is that integer, and anything else is `NaN` (`none`). Other
JS numeric literal forms (fractions, exponents, hex, `Infinity`) never reach
`parseEventDate` in this codebase and are out of scope. -/
def jsNumber (s : String) : Option Int :=
  let t := (trimStr s).data
  if t.isEmpty then some 0
  else
    match t with
    | '-' :: rest => (digitsVal rest).map (fun n => -(n : Int))
    | '+' :: rest => (digitsVal rest).map (fun n => (n : Int))
    | _ => (digitsVal t).map (fun n => (n : Int))

/-- The `string | number` timestamp accepted by `parseEventDate`. -/
inductive TimestampValue where
  | str (s : String)
  | num (n : Int)
deriving Repr, DecidableEq

/-- `parseEventDate` (rss/utils.ts lines 44-64), returning the wrapped
`Date`'s millisecond value, `none` for an invalid timestamp. A numeric value
(or numeric string) above `1e12` is taken as milliseconds, otherwise as Unix
seconds and scaled by 1000; non-numeric strings fall back to JS
`Date.parse`, modelled by the `dateParse` parameter (`none` = `NaN`). -/
def parseEventDate (dateParse : String → Option Int) :
    TimestampValue → Option Int
  | TimestampValue.num n => some (if 1000000000000 < n then n else n * 1000)
  | TimestampValue.str s =>
    match jsNumber s with
    | some n => some (if 1000000000000 < n then n else n * 1000)
    | none => dateParse s

/-- The identity tuple hashed by `getEventGuid` (lines 67-73). -/
structure EventIdentity where
  networkName : String
  chainId : Nat
  title : String
  block : Nat
  link : String
deriving Repr, DecidableEq

/-- `getEventGuid` (lines 67-82): keccak256 of the dash-joined normalized
tuple. The hash itself is the `keccak256` parameter. -/
def getEventGuid (keccak256 : String → String) (e : EventIdentity) : String :=
  let normalized := String.intercalate "-"
    [stripWhitespace (toLowerStr e.networkName),
     toString e.chainId,
     stripWhitespace (toLowerStr e.title),
     toString e.block,
     toLowerStr e.link]
  keccak256 normalized

/-- The event object passed to `RSSFeedManager.addEvent` (lines 156-169).
`eventArgs` values are kept as strings (they are only ever serialized). -/
structure RSSEvent where
  address : String
  eventName : String
  topics : List String
  title : String
  link : String
  networkName : String
  chainId : Nat
  block : Nat
  govBody : String
  proposalLink : Option String
  timestamp : TimestampValue
  eventArgs : List (String × String)
deriving Repr, DecidableEq

/-- The data serialized into an item's `description` JSON string (lines
199-213). The JSON/locale rendering is presentation-only; the payload is
kept structured. `dateMs` holds the parsed date rendered by
`date.toLocaleString()`. -/
structure ItemDescription where
  network : String
  chainId : Nat
  block : Nat
  dateMs : Int
  governanceBody : String
  eventType : String
  contractAddress : String
  proposalLink : Option String
  eventData : List (String × String)
deriving Repr, DecidableEq

/-- One RSS feed item as built by `addEvent`/`addItemToFeed`. -/
structure FeedItem where
  title : String
  url : String
  description : ItemDescription
  author : String
  categories : List String
  date : Int
  guid : String
deriving Repr, DecidableEq

/-- The mutable state of the `RSSFeedManager` singleton: the seen-GUID set
(modelled as a list) and the item list, its single source of truth. -/
structure FeedState where
  seenGuids : List String
  items : List FeedItem
deriving Repr, DecidableEq

/-- The identity tuple of an `addEvent` argument (lines 179-185). -/
def identityOf (e : RSSEvent) : EventIdentity :=
  ⟨e.networkName, e.chainId, e.title, e.block, e.link⟩

/-- The item object pushed by `addEvent` (lines 196-218). -/
def feedItemOf (e : RSSEvent) (date : Int) (guid : String) : FeedItem :=
  { title := e.title
    url := e.link
    description :=
      ⟨e.networkName, e.chainId, e.block, date, e.govBody, e.eventName,
        e.address, e.proposalLink, e.eventArgs⟩
    author := e.govBody
    categories := e.topics
    date := date
    guid := guid }

/-- `RSSFeedManager.addEvent` (lines 156-219): reject on unparsable
timestamp, drop silently on a seen GUID, otherwise record the GUID and push
the item. -/
def addEvent (keccak256 : String → String) (dateParse : String → Option Int)
    (st : FeedState) (event : RSSEvent) : FeedState :=
  match parseEventDate dateParse event.timestamp with
  | none => st
  | some date =>
    let guid := getEventGuid keccak256 (identityOf event)
    if guid ∈ st.seenGuids then st
    else
      { seenGuids := st.seenGuids ++ [guid]
        items := st.items ++ [feedItemOf event date guid] }

/-- The comparator of `generate` (line 227):
`new Date(b.date).getTime() - new Date(a.date).getTime()`, i.e. date
descending, newest first. -/
def dateDesc (a b : FeedItem) : Bool := decide (b.date ≤ a.date)

/-- `RSSFeedManager.generate` (lines 221-233): the items of the produced
feed, sorted newest first by the stable sort. -/
def generate (st : FeedState) : List FeedItem := insertionSort dateDesc st.items

/-- `updateRSSFeed` (lines 305-375), as a state transformer: first
component is the manager state after the call, second is the list archived
when the threshold was exceeded (`none` when no archival happened).
`threshold` is the shared constant `ARCHIVE_ITEM_THRESHOLD` (defined in
`packages/backend/shared`, outside the sources under verification; every
theorem below holds for all values). `uploadOk` is whether
`RSSFeedManager.upload` succeeded; on archival, `updateItems(itemsToKeep)`
trims the manager state before the upload is attempted, so the kept list is
the state either way. The content-hash existence check only prevents
re-uploading a byte-identical archive blob; the archived content itself is
`items.slice(ARCHIVE_ITEM_THRESHOLD)` of the sorted list. -/
def updateRSSFeed (threshold : Nat) (uploadOk : Bool) (st : FeedState) :
    FeedState × Option (List FeedItem) :=
  let items := generate st
  if threshold < items.length then
    let itemsToKeep := items.take threshold
    let itemsToArchive := items.drop threshold
    ({ seenGuids := itemsToKeep.map (·.guid), items := itemsToKeep },
      some itemsToArchive)
  else
    (if uploadOk then { st with items := items } else st, none)

/-! ## Concrete fixtures used to instantiate the theorems -/

/-- A parsed event at block 5. -/
def evX : ParsedEvent :=
  { address := "0x1", eventName := "ProposalCreated", title := "tX",
    link := "https://x/tx/0xbb", txhash := "0xbb", blocknumber := 5,
    timestamp := "100", proposalLink := "", networkName := "ZKSync",
    chainId := 324 }

/-- A parsed event at block 3. -/
def evY : ParsedEvent :=
  { address := "0x1", eventName := "ProposalCreated", title := "tY",
    link := "https://x/tx/0xaa", txhash := "0xaa", blocknumber := 3,
    timestamp := "90", proposalLink := "", networkName := "ZKSync",
    chainId := 324 }

/-- A fetch stub that succeeds everywhere with two out-of-order events. -/
def fetchTwo : Nat → Nat → Except String (List ParsedEvent) :=
  fun _ _ => Except.ok [evX, evY]

/-- A fetch stub that throws on every call. -/
def fetchBoom : Nat → Nat → Except String (List ParsedEvent) :=
  fun _ _ => Except.error "boom"

/-- A stored state with one failed segment. -/
def exState : ProcessingState :=
  { lastProcessedBlock := some 10, hasError := some false, lastError := none,
    lastUpdated := "t0", retryCount := none, consecutiveFailures := none,
    apiCallCount := none, failedSegments := some [⟨1, 2, "a"⟩] }

/-- A write carrying two new failed segments, one with an already-stored
`(from, to)` key. -/
def mergeUpdate : StateUpdate :=
  { failedSegments := some [⟨1, 2, "b"⟩, ⟨3, 4, "c"⟩] }

/-- A write whose failed-segment list repeats a `(from, to)` key. -/
def dupUpdate : StateUpdate :=
  { failedSegments := some [⟨1, 2, "e"⟩, ⟨1, 2, "e"⟩] }

/-- Injective stand-in used to instantiate the `keccak256` parameter in
concrete computations. -/
def hashId : String → String := fun s => s

/-- Instantiation of the abstract `Date.parse` that accepts no textual
date. -/
def noDateParse : String → Option Int := fun _ => none

/-- A fresh feed-manager state. -/
def emptyFeed : FeedState := ⟨[], []⟩

/-- A governance event with a Unix-seconds timestamp string. -/
def evA : RSSEvent :=
  { address := "0xa", eventName := "ProposalCreated", topics := ["cat"],
    title := "Alpha", link := "https://x/tx/1", networkName := "ZKSync",
    chainId := 324, block := 1, govBody := "Gov", proposalLink := none,
    timestamp := TimestampValue.str "100", eventArgs := [] }

/-- The same identity tuple as `evA` with a different timestamp. -/
def evA2 : RSSEvent := { evA with timestamp := TimestampValue.str "999" }

/-- A later event with a distinct identity tuple. -/
def evB : RSSEvent :=
  { evA with
    title := "Beta"
    block := 2
    link := "https://x/tx/2"
    timestamp := TimestampValue.str "200" }

/-- An event whose timestamp is the empty string. -/
def evEmptyTs : RSSEvent :=
  { evA with
    title := "Gamma"
    link := "https://x/tx/3"
    timestamp := TimestampValue.str "" }

/-- The feed state after adding `evA` then `evB`. -/
def feedAfterAB : FeedState :=
  addEvent hashId noDateParse (addEvent hashId noDateParse emptyFeed evA) evB

/-- An older feed item (date 5 ms). -/
def itemOld : FeedItem :=
  { title := "old", url := "u1",
    description := ⟨"n", 1, 1, 5, "g", "E", "0x", none, []⟩,
    author := "g", categories := [], date := 5, guid := "guid1" }

/-- A newer feed item (date 9 ms). -/
def itemNew : FeedItem :=
  { title := "new", url := "u2",
    description := ⟨"n", 1, 2, 9, "g", "E", "0x", none, []⟩,
    author := "g", categories := [], date := 9, guid := "guid2" }

/-- A feed state holding the two items oldest-first. -/
def twoItemFeed : FeedState := ⟨["guid1", "guid2"], [itemOld, itemNew]⟩

/-! ## Sorting lemmas -/

theorem orderedInsert_perm (le : α → α → Bool) (a : α) (l : List α) :
    List.Perm (orderedInsert le a l) (a :: l) := by
  induction l with
  | nil => simp [orderedInsert]
  | cons b bs ih =>
    simp only [orderedInsert]
    split
    · exact List.Perm.refl _
    · exact List.Perm.trans (List.Perm.cons b ih) (List.Perm.swap a b bs)

theorem insertionSort_perm (le : α → α → Bool) (l : List α) :
    List.Perm (insertionSort le l) l := by
  induction l with
  | nil => exact List.Perm.refl _
  | cons a as ih =>
    exact List.Perm.trans (orderedInsert_perm le a (insertionSort le as)) (List.Perm.cons a ih)

theorem length_insertionSort (le : α → α → Bool) (l : List α) :
    (insertionSort le l).length = l.length :=
  (insertionSort_perm le l).length_eq

theorem pairwise_orderedInsert (le : α → α → Bool)
    (total : ∀ a b, le a b = true ∨ le b a = true)
    (trans : ∀ a b c, le a b = true → le b c = true → le a c = true)
    (a : α) (l : List α) (h : l.Pairwise (le · ·)) :
    (orderedInsert le a l).Pairwise (le · ·) := by
  induction l with
  | nil => simp [orderedInsert]
  | cons b bs ih =>
    simp only [orderedInsert]
    rcases List.pairwise_cons.mp h with ⟨hb, hbs⟩
    split
    · rename_i hab
      refine List.pairwise_cons.mpr ⟨?_, h⟩
      intro x hx
      rcases List.mem_cons.mp hx with rfl | hx'
      · exact hab
      · exact trans a b x hab (hb x hx')
    · rename_i hab
      have hba : le b a = true := by
        rcases total a b with h' | h'
        · exact absurd h' hab
        · exact h'
      refine List.pairwise_cons.mpr ⟨?_, ih hbs⟩
      intro x hx
      have hx' := (orderedInsert_perm le a bs).mem_iff.mp hx
      rcases List.mem_cons.mp hx' with rfl | hx''
      · exact hba
      · exact hb x hx''

theorem pairwise_insertionSort (le : α → α → Bool)
    (total : ∀ a b, le a b = true ∨ le b a = true)
    (trans : ∀ a b c, le a b = true → le b c = true → le a c = true)
    (l : List α) : (insertionSort le l).Pairwise (le · ·) := by
  induction l with
  | nil => simp [insertionSort]
  | cons a as ih =>
    exact pairwise_orderedInsert le total trans a _ ih

theorem charListLe_total : ∀ as bs, charListLe as bs = true ∨ charListLe bs as = true := by
  intro as
  induction as with
  | nil => intro bs; left; cases bs <;> rfl
  | cons a as ih =>
    intro bs
    cases bs with
    | nil => right; rfl
    | cons b bs =>
      simp only [charListLe]
      rcases Nat.lt_trichotomy a.toNat b.toNat with h | h | h
      · left; simp [h]
      · have h1 : ¬ a.toNat < b.toNat := by omega
        have h2 : ¬ b.toNat < a.toNat := by omega
        simpa [h1, h2] using ih bs
      · right; simp [h]

theorem charListLe_trans :
    ∀ as bs cs, charListLe as bs = true → charListLe bs cs = true → charListLe as cs = true := by
  intro as
  induction as with
  | nil => intro bs cs _ _; cases cs <;> rfl
  | cons a as ih =>
    intro bs cs hab hbc
    cases bs with
    | nil => simp [charListLe] at hab
    | cons b bs =>
      cases cs with
      | nil => simp [charListLe] at hbc
      | cons c cs =>
        simp only [charListLe] at hab hbc ⊢
        by_cases h1 : a.toNat < b.toNat
        · by_cases h2 : b.toNat < c.toNat
          · simp [show a.toNat < c.toNat by omega]
          · by_cases h3 : c.toNat < b.toNat
            · simp [h2, h3] at hbc
            · simp [show a.toNat < c.toNat by omega]
        · by_cases h1' : b.toNat < a.toNat
          · simp [h1, h1'] at hab
          · by_cases h2 : b.toNat < c.toNat
            · simp [show a.toNat < c.toNat by omega]
            · by_cases h3 : c.toNat < b.toNat
              · simp [h2, h3] at hbc
              · have hna : ¬ a.toNat < c.toNat := by omega
                have hnc : ¬ c.toNat < a.toNat := by omega
                rw [if_neg h1, if_neg h1'] at hab
                rw [if_neg h2, if_neg h3] at hbc
                rw [if_neg hna, if_neg hnc]
                exact ih bs cs hab hbc

theorem strLe_total (a b : String) : strLe a b = true ∨ strLe b a = true :=
  charListLe_total a.data b.data

theorem strLe_trans (a b c : String) :
    strLe a b = true → strLe b c = true → strLe a c = true :=
  charListLe_trans a.data b.data c.data

/-! ## Collector lemmas -/

theorem queueMeasure_cons (s : Segment) (rest : List Segment) :
    queueMeasure (s :: rest) = segMeasure s + queueMeasure rest := by
  simp [queueMeasure]

theorem segMeasure_pos (s : Segment) : 1 ≤ segMeasure s := by
  unfold segMeasure
  split <;> omega

theorem splitSegment_measure (s : Segment) (hle : s.«from» ≤ s.«to»)
    (h1 : s.«from» < (s.«from» + s.«to») / 2) (h2 : (s.«from» + s.«to») / 2 < s.«to») :
    segMeasure (splitSegment s).1 + segMeasure (splitSegment s).2 < segMeasure s := by
  simp only [segMeasure, splitSegment, MAX_SEGMENT_ATTEMPTS]
  split_ifs <;> omega

theorem retry_measure (s : Segment) (hle : s.«from» ≤ s.«to»)
    (h : s.attempt + 1 ≤ MAX_SEGMENT_ATTEMPTS) :
    segMeasure { s with attempt := s.attempt + 1 } < segMeasure s := by
  simp only [segMeasure, MAX_SEGMENT_ATTEMPTS] at *
  split_ifs
  all_goals omega

/-- The fuel passed by `collectEventsWithAdaptiveRange` always suffices: the
work-list loop terminates on every input, whatever the fetch does. -/
theorem go_isSome (fetch : Nat → Nat → Except String (List ParsedEvent)) :
    ∀ (fuel : Nat) (segs : List Segment) (collected : List ParsedEvent)
      (apiCalls : Nat) (failed : List FailedSegment),
      queueMeasure segs < fuel →
      (go fetch fuel segs collected apiCalls failed).isSome := by
  intro fuel
  induction fuel with
  | zero => intro segs _ _ _ h; exact absurd h (by omega)
  | succ fuel ih =>
    intro segs collected apiCalls failed h
    cases segs with
    | nil => simp [go]
    | cons segment rest =>
      rw [queueMeasure_cons] at h
      simp only [go]
      by_cases hskip : segment.«to» < segment.«from»
      · rw [if_pos hskip]
        apply ih
        have hm : segMeasure segment = 1 := by
          simp only [segMeasure]
          rw [if_neg (by omega)]
        omega
      · rw [if_neg hskip]
        split
        · apply ih
          have := segMeasure_pos segment
          omega
        · by_cases hsplit : MIN_SEGMENT_SPAN < segment.«to» - segment.«from» ∧
              segment.«from» < (segment.«from» + segment.«to») / 2 ∧
              (segment.«from» + segment.«to») / 2 < segment.«to»
          · rw [if_pos hsplit]
            apply ih
            rw [queueMeasure_cons, queueMeasure_cons]
            have := splitSegment_measure segment (by omega) hsplit.2.1 hsplit.2.2
            omega
          · rw [if_neg hsplit]
            by_cases hretry : segment.attempt + 1 ≤ MAX_SEGMENT_ATTEMPTS
            · rw [if_pos hretry]
              apply ih
              rw [queueMeasure_cons]
              have := retry_measure segment (by omega) hretry
              omega
            · rw [if_neg hretry]
              apply ih
              have := segMeasure_pos segment
              omega

/-- The collector itself always returns a value. -/
theorem collect_isSome (fetch : Nat → Nat → Except String (List ParsedEvent))
    (startBlock endBlock : Nat) :
    (collectEventsWithAdaptiveRange fetch startBlock endBlock).isSome := by
  unfold collectEventsWithAdaptiveRange
  split
  · rfl
  · exact go_isSome fetch _ _ _ _ _ (by omega)

theorem eventLe_total (a b : ParsedEvent) : eventLe a b = true ∨ eventLe b a = true := by
  simp only [eventLe, Bool.or_eq_true, Bool.and_eq_true, decide_eq_true_eq]
  rcases Nat.lt_trichotomy a.blocknumber b.blocknumber with h | h | h
  · exact Or.inl (Or.inl h)
  · rcases strLe_total a.txhash b.txhash with h' | h'
    · exact Or.inl (Or.inr ⟨h, h'⟩)
    · exact Or.inr (Or.inr ⟨h.symm, h'⟩)
  · exact Or.inr (Or.inl h)

theorem eventLe_trans (a b c : ParsedEvent) :
    eventLe a b = true → eventLe b c = true → eventLe a c = true := by
  intro hab hbc
  simp only [eventLe, Bool.or_eq_true, Bool.and_eq_true, decide_eq_true_eq] at *
  rcases hab with h | ⟨h, h'⟩ <;> rcases hbc with g | ⟨g, g'⟩
  · exact Or.inl (by omega)
  · exact Or.inl (by omega)
  · exact Or.inl (by omega)
  · exact Or.inr ⟨by omega, strLe_trans _ _ _ h' g'⟩

/-- Whatever the work list holds, any result of the loop has its event list
sorted by the block-number/txhash comparator. -/
theorem go_events_sorted (fetch : Nat → Nat → Except String (List ParsedEvent)) :
    ∀ (fuel : Nat) (segs : List Segment) (collected : List ParsedEvent)
      (apiCalls : Nat) (failed : List FailedSegment) (r : CollectResult),
      go fetch fuel segs collected apiCalls failed = some r →
      r.events.Pairwise (fun a b => eventLe a b = true) := by
  intro fuel
  induction fuel with
  | zero => intro segs c a f r h; exact absurd h (by simp [go])
  | succ fuel ih =>
    intro segs c a f r h
    cases segs with
    | nil =>
      simp only [go, Option.some.injEq] at h
      subst h
      exact pairwise_insertionSort eventLe eventLe_total eventLe_trans c
    | cons segment rest =>
      simp only [go] at h
      split at h
      · exact ih _ _ _ _ _ h
      · split at h
        · exact ih _ _ _ _ _ h
        · split at h
          · exact ih _ _ _ _ _ h
          · split at h
            · exact ih _ _ _ _ _ h
            · exact ih _ _ _ _ _ h

/-- Every recorded failed segment really is a range on which the fetch threw,
and it is recorded with that throw's message. -/
theorem go_failed_faithful (fetch : Nat → Nat → Except String (List ParsedEvent)) :
    ∀ (fuel : Nat) (segs : List Segment) (collected : List ParsedEvent)
      (apiCalls : Nat) (failed : List FailedSegment) (r : CollectResult),
      go fetch fuel segs collected apiCalls failed = some r →
      (∀ fs ∈ failed, fetch fs.«from» fs.«to» = Except.error fs.error) →
      ∀ fs ∈ r.failedSegments, fetch fs.«from» fs.«to» = Except.error fs.error := by
  intro fuel
  induction fuel with
  | zero => intro segs c a f r h; exact absurd h (by simp [go])
  | succ fuel ih =>
    intro segs c a f r h hinv
    cases segs with
    | nil =>
      simp only [go, Option.some.injEq] at h
      subst h
      exact hinv
    | cons segment rest =>
      simp only [go] at h
      split at h
      · exact ih _ _ _ _ _ h hinv
      · split at h
        · exact ih _ _ _ _ _ h hinv
        · rename_i msg heq
          split at h
          · exact ih _ _ _ _ _ h hinv
          · split at h
            · exact ih _ _ _ _ _ h hinv
            · refine ih _ _ _ _ _ h ?_
              intro fs hfs
              rcases List.mem_append.mp hfs with hfs' | hfs'
              · exact hinv fs hfs'
              · rcases List.mem_singleton.mp hfs' with rfl
                exact heq

/-- When the fetch fails on every range, every block of every pending
segment ends up covered by some recorded failed segment. -/
theorem go_covers (fetch : Nat → Nat → Except String (List ParsedEvent))
    (hfail : ∀ f t, ∃ m, fetch f t = Except.error m) :
    ∀ (fuel : Nat) (segs : List Segment) (collected : List ParsedEvent)
      (apiCalls : Nat) (failed : List FailedSegment) (r : CollectResult) (b : Nat),
      go fetch fuel segs collected apiCalls failed = some r →
      ((∃ sg ∈ segs, sg.«from» ≤ b ∧ b ≤ sg.«to») ∨
        (∃ fs ∈ failed, fs.«from» ≤ b ∧ b ≤ fs.«to»)) →
      ∃ fs ∈ r.failedSegments, fs.«from» ≤ b ∧ b ≤ fs.«to» := by
  intro fuel
  induction fuel with
  | zero => intro segs c a f r b h; exact absurd h (by simp [go])
  | succ fuel ih =>
    intro segs c a f r b h hcov
    cases segs with
    | nil =>
      simp only [go, Option.some.injEq] at h
      subst h
      rcases hcov with ⟨sg, hsg, _⟩ | hfs
      · exact absurd hsg (List.not_mem_nil sg)
      · exact hfs
    | cons segment rest =>
      simp only [go] at h
      split at h
      · rename_i hskip
        refine ih _ _ _ _ _ _ h ?_
        rcases hcov with ⟨sg, hsg, hb⟩ | hfs
        · rcases List.mem_cons.mp hsg with rfl | hsg'
          · omega
          · exact Or.inl ⟨sg, hsg', hb⟩
        · exact Or.inr hfs
      · split at h
        · rename_i events heq
          obtain ⟨m, hm⟩ := hfail segment.«from» segment.«to»
          rw [hm] at heq
          exact Except.noConfusion heq
        · rename_i msg heq
          split at h
          · rename_i hsplit
            refine ih _ _ _ _ _ _ h ?_
            rcases hcov with ⟨sg, hsg, hb⟩ | hfs
            · rcases List.mem_cons.mp hsg with rfl | hsg'
              · simp only [splitSegment]
                by_cases hhalf : b ≤ (sg.«from» + sg.«to») / 2
                · exact Or.inl ⟨_, List.mem_cons_self _ _, by simp; omega⟩
                · refine Or.inl ⟨_, List.mem_cons.mpr (Or.inr (List.mem_cons_self _ _)), ?_⟩
                  simp
                  omega
              · exact Or.inl ⟨sg, by simp [hsg'], hb⟩
            · exact Or.inr hfs
          · split at h
            · refine ih _ _ _ _ _ _ h ?_
              rcases hcov with ⟨sg, hsg, hb⟩ | hfs
              · rcases List.mem_cons.mp hsg with rfl | hsg'
                · exact Or.inl ⟨_, List.mem_cons_self _ _, by simpa using hb⟩
                · exact Or.inl ⟨sg, by simp [hsg'], hb⟩
              · exact Or.inr hfs
            · refine ih _ _ _ _ _ _ h ?_
              rcases hcov with ⟨sg, hsg, hb⟩ | hfs
              · rcases List.mem_cons.mp hsg with rfl | hsg'
                · exact Or.inr ⟨⟨sg.«from», sg.«to», msg⟩, by simp, by simpa using hb⟩
                · exact Or.inl ⟨sg, hsg', hb⟩
              · exact Or.inr ⟨hfs.choose, List.mem_append.mpr (Or.inl hfs.choose_spec.1), hfs.choose_spec.2⟩

/-! ## Claims about the collector -/

/-- Claim C1: every terminating run of `collectEventsWithAdaptiveRange`
returns its events sorted by block number ascending with ties broken by
transaction-hash lexical order, and for a fixed log-source response function
the run over a given range has a unique result, independent of how the range
was split or retried (the splits and retries are functions of the same fixed
response function). -/
theorem collect_sorted_and_deterministic
    (fetch : Nat → Nat → Except String (List ParsedEvent))
    (startBlock endBlock : Nat) (r : CollectResult)
    (h : collectEventsWithAdaptiveRange fetch startBlock endBlock = some r) :
    r.events.Pairwise (fun a b => eventLe a b = true) ∧
    ∀ r', collectEventsWithAdaptiveRange fetch startBlock endBlock = some r' → r' = r := by
  constructor
  · unfold collectEventsWithAdaptiveRange at h
    split at h
    · rcases Option.some.inj h with rfl
      exact List.Pairwise.nil
    · exact go_events_sorted fetch _ _ _ _ _ r h
  · intro r' h'
    rw [h] at h'
    exact (Option.some.inj h').symm

/-- Witness for C1: a concrete run over `[0, 5]` with a stub returning two
out-of-order events terminates and returns them sorted. -/
theorem collect_sorted_witness :
    collectEventsWithAdaptiveRange fetchTwo 0 5 = some ⟨[evY, evX], 1, []⟩ ∧
    ([evY, evX] : List ParsedEvent).Pairwise (fun a b => eventLe a b = true) := by
  refine ⟨by decide, ?_⟩
  exact (collect_sorted_and_deterministic fetchTwo 0 5 ⟨[evY, evX], 1, []⟩ (by decide)).1

/-- Claim C2: a failed segment of span above `MIN_SEGMENT_SPAN` is split at
`mid = ⌊(from + to) / 2⌋` into exactly the children `[from, mid]` and
`[mid + 1, to]` with attempt counters reset to 0; the children are disjoint,
gapless, and cover exactly the original range; and the collector loop on
such a failing segment pushes exactly these two children in front of the
remaining work list. -/
theorem split_segment_correct (f t attempt : Nat)
    (h : MIN_SEGMENT_SPAN < t - f) :
    splitSegment ⟨f, t, attempt⟩ =
      ({ «from» := f, «to» := (f + t) / 2, attempt := 0 },
       { «from» := (f + t) / 2 + 1, «to» := t, attempt := 0 }) ∧
    f ≤ (f + t) / 2 ∧ (f + t) / 2 < t ∧
    (∀ b, (f ≤ b ∧ b ≤ t) ↔
      ((f ≤ b ∧ b ≤ (f + t) / 2) ∨ ((f + t) / 2 + 1 ≤ b ∧ b ≤ t))) ∧
    (∀ b, ¬((f ≤ b ∧ b ≤ (f + t) / 2) ∧ ((f + t) / 2 + 1 ≤ b ∧ b ≤ t))) ∧
    (∀ (fetch : Nat → Nat → Except String (List ParsedEvent))
        (fuel : Nat) (rest : List Segment) (collected : List ParsedEvent)
        (apiCalls : Nat) (failed : List FailedSegment) (msg : String),
      fetch f t = Except.error msg →
      go fetch (fuel + 1) (⟨f, t, attempt⟩ :: rest) collected apiCalls failed =
        go fetch fuel
          (⟨f, (f + t) / 2, 0⟩ :: ⟨(f + t) / 2 + 1, t, 0⟩ :: rest)
          collected apiCalls failed) := by
  have hspan : MIN_SEGMENT_SPAN = 10 := rfl
  refine ⟨by simp [splitSegment], by omega, by omega, ?_, ?_, ?_⟩
  · intro b; omega
  · intro b; omega
  · intro fetch fuel rest collected apiCalls failed msg hmsg
    have h10 : 10 < t - f := hspan ▸ h
    simp only [go, hmsg]
    rw [if_neg (by simp; omega)]
    rw [if_pos (show MIN_SEGMENT_SPAN <
        ({ «from» := f, «to» := t, attempt := attempt } : Segment).«to» -
          ({ «from» := f, «to» := t, attempt := attempt } : Segment).«from» ∧ _ ∧ _ from
      ⟨by simpa using h, by omega, by omega⟩)]
    simp [splitSegment]

/-- Witness for C2: the segment `[0, 20]` (span 20 > 10) splits at 10 into
`[0, 10]` and `[11, 20]`. -/
theorem split_segment_witness :
    MIN_SEGMENT_SPAN < 20 - 0 ∧
    splitSegment ⟨0, 20, 2⟩ = (⟨0, 10, 0⟩, ⟨11, 20, 0⟩) :=
  ⟨by decide, (split_segment_correct 0 20 2 (by decide)).1⟩

/-- Claim C3: for every range and every behaviour of the fetch — including
throwing on every call — the collector returns normally (the loop is total
and fetch errors never escape it); every entry of the returned
`failedSegments` records a range on which the fetch actually threw, together
with that throw's message; and when the fetch throws on every call, every
block of `[startBlock, endBlock]` is covered by a recorded failed segment,
so exhausted segments are recorded rather than escalated. -/
theorem collector_never_throws_and_records
    (fetch : Nat → Nat → Except String (List ParsedEvent))
    (startBlock endBlock : Nat) :
    (collectEventsWithAdaptiveRange fetch startBlock endBlock).isSome ∧
    ∀ r, collectEventsWithAdaptiveRange fetch startBlock endBlock = some r →
      (∀ fs ∈ r.failedSegments, fetch fs.«from» fs.«to» = Except.error fs.error) ∧
      ((∀ f t, ∃ m, fetch f t = Except.error m) →
        ∀ b, startBlock ≤ b → b ≤ endBlock →
          ∃ fs ∈ r.failedSegments, fs.«from» ≤ b ∧ b ≤ fs.«to») := by
  refine ⟨collect_isSome fetch startBlock endBlock, ?_⟩
  intro r h
  constructor
  · unfold collectEventsWithAdaptiveRange at h
    split at h
    · rcases Option.some.inj h with rfl
      intro fs hfs
      exact absurd hfs (List.not_mem_nil fs)
    · exact go_failed_faithful fetch _ _ _ _ _ r h (by intro fs hfs; cases hfs)
  · intro hfail b hsb hbe
    unfold collectEventsWithAdaptiveRange at h
    split at h
    · omega
    · refine go_covers fetch hfail _ _ _ _ _ r b h ?_
      exact Or.inl ⟨⟨startBlock, endBlock, 0⟩, List.mem_singleton_self _, hsb, hbe⟩

/-- Witness for C3: with a fetch that throws everywhere, the run over
`[0, 0]` returns normally, records the abandoned segment with its message,
and covers block 0. -/
theorem collector_total_witness :
    collectEventsWithAdaptiveRange fetchBoom 0 0 = some ⟨[], 0, [⟨0, 0, "boom"⟩]⟩ ∧
    fetchBoom 0 0 = Except.error "boom" ∧
    (∃ fs ∈ ([⟨0, 0, "boom"⟩] : List FailedSegment), fs.«from» ≤ 0 ∧ 0 ≤ fs.«to») := by
  refine ⟨by decide, rfl, ?_⟩
  have h := (collector_never_throws_and_records fetchBoom 0 0).2
    ⟨[], 0, [⟨0, 0, "boom"⟩]⟩ (by decide)
  exact h.2 (fun f t => ⟨"boom", rfl⟩) 0 (Nat.le_refl 0) (Nat.le_refl 0)

/-- Claim C8, code evaluation: the retry of a minimal-span segment uses the
delay `RETRY_DELAY_BASE * (attempt + 1)` — 5000 ms, 10000 ms, 15000 ms for
the three attempts — which grows linearly, not exponentially (the
consecutive ratios 2 and 3/2 differ, so no geometric progression fits),
while attempts are indeed capped at `MAX_SEGMENT_ATTEMPTS`. -/
theorem retry_delay_linear_eval :
    retryDelay 0 = 5000 ∧ retryDelay 1 = 10000 ∧ retryDelay 2 = 15000 ∧
    retryDelay 0 * retryDelay 2 ≠ retryDelay 1 * retryDelay 1 ∧
    (∀ n, retryDelay (n + 1) = retryDelay n + RETRY_DELAY_BASE) ∧
    MAX_SEGMENT_ATTEMPTS = 3 := by
  refine ⟨rfl, rfl, rfl, by decide, ?_, rfl⟩
  intro n
  simp only [retryDelay, RETRY_DELAY_BASE]
  ring

/-! ## State-store lemmas and claims -/

theorem mem_keys_dedupeGo :
    ∀ (l : List FailedSegment) (seen : List (Nat × Nat)) (k : Nat × Nat),
      k ∈ (dedupeGo l seen).map segKey ↔ (k ∈ l.map segKey ∧ k ∉ seen) := by
  intro l
  induction l with
  | nil => intro seen k; simp [dedupeGo]
  | cons x xs ih =>
    intro seen k
    simp only [dedupeGo]
    by_cases hx : segKey x ∈ seen
    · rw [if_pos hx, ih]
      simp only [List.map_cons, List.mem_cons]
      constructor
      · rintro ⟨hk, hns⟩
        exact ⟨Or.inr hk, hns⟩
      · rintro ⟨hk | hk, hns⟩
        · subst hk; exact absurd hx hns
        · exact ⟨hk, hns⟩
    · rw [if_neg hx]
      simp only [List.map_cons, List.mem_cons, ih]
      constructor
      · rintro (rfl | ⟨hk, hns⟩)
        · exact ⟨Or.inl rfl, hx⟩
        · refine ⟨Or.inr hk, ?_⟩
          intro hkseen
          exact hns (Or.inr hkseen)
      · rintro ⟨hk | hk, hns⟩
        · exact Or.inl hk
        · by_cases hkx : k = segKey x
          · exact Or.inl hkx
          · refine Or.inr ⟨hk, ?_⟩
            intro hmem
            rcases hmem with h' | h'
            · exact hkx h'
            · exact hns h'

theorem nodup_keys_dedupeGo :
    ∀ (l : List FailedSegment) (seen : List (Nat × Nat)),
      ((dedupeGo l seen).map segKey).Nodup := by
  intro l
  induction l with
  | nil => intro seen; simp [dedupeGo]
  | cons x xs ih =>
    intro seen
    simp only [dedupeGo]
    by_cases hx : segKey x ∈ seen
    · rw [if_pos hx]; exact ih seen
    · rw [if_neg hx]
      simp only [List.map_cons, List.nodup_cons]
      refine ⟨?_, ih _⟩
      intro hmem
      rcases (mem_keys_dedupeGo xs (segKey x :: seen) (segKey x)).mp hmem with ⟨_, hns⟩
      exact hns (List.mem_cons_self _ _)

/-- Claim C4 counterexample: when the stored state has no prior failed
segments, `updateState` stores the incoming non-empty list verbatim, so an
incoming list that repeats a `(from, to)` key is stored with the duplicate —
the stored result is not deduplicated by key, contrary to the claim. -/
theorem update_state_dedupe_counterexample :
    (updateState none dupUpdate "t1").failedSegments =
      some [⟨1, 2, "e"⟩, ⟨1, 2, "e"⟩] ∧
    ¬ (([⟨1, 2, "e"⟩, ⟨1, 2, "e"⟩] : List FailedSegment).map segKey).Nodup := by
  exact ⟨rfl, by decide⟩

/-- Claim C4 (amended): an empty incoming `failedSegments` list clears the
stored list; an absent field leaves it unchanged; a non-empty incoming list
is unioned with a non-empty stored list, first occurrence per `(from, to)`
key winning, so the stored keys are exactly the union of old and new keys
with no duplicate key; but when there is no non-empty stored list the
incoming list is stored verbatim (only then can a duplicated incoming key
survive). -/
theorem update_state_failed_segment_merge (existing : Option ProcessingState)
    (state : StateUpdate) (now : String) :
    (state.failedSegments = some [] →
      (updateState existing state now).failedSegments = some []) ∧
    (state.failedSegments = none →
      (updateState existing state now).failedSegments =
        existing.bind (·.failedSegments)) ∧
    (∀ l, state.failedSegments = some l → l ≠ [] →
      (existing.bind (·.failedSegments) = none ∨
        existing.bind (·.failedSegments) = some []) →
      (updateState existing state now).failedSegments = some l) ∧
    (∀ l ex, state.failedSegments = some l → l ≠ [] →
      existing.bind (·.failedSegments) = some ex → ex ≠ [] →
      (updateState existing state now).failedSegments =
        some (dedupeByKey (ex ++ l)) ∧
      (∀ k, k ∈ (dedupeByKey (ex ++ l)).map segKey ↔
        (k ∈ ex.map segKey ∨ k ∈ l.map segKey)) ∧
      ((dedupeByKey (ex ++ l)).map segKey).Nodup) := by
  refine ⟨?_, ?_, ?_, ?_⟩
  · intro h
    simp [updateState, h]
  · intro h
    simp [updateState, h]
  · intro l h hne hex
    have hl : l.isEmpty = false := by
      cases l
      · exact absurd rfl hne
      · rfl
    rcases hex with hex | hex
    · simp [updateState, h, hl, hex]
    · simp [updateState, h, hl, hex]
  · intro l ex h hne hexist hexne
    have hl : l.isEmpty = false := by
      cases l
      · exact absurd rfl hne
      · rfl
    have hexl : ex.isEmpty = false := by
      cases ex
      · exact absurd rfl hexne
      · rfl
    refine ⟨by simp [updateState, h, hl, hexist, hexl], ?_, ?_⟩
    · intro k
      rw [show dedupeByKey (ex ++ l) = dedupeGo (ex ++ l) [] from rfl,
        mem_keys_dedupeGo]
      simp
    · exact nodup_keys_dedupeGo (ex ++ l) []

/-- Witness for C4: merging two new failed segments into a state that
already stores one of their keys keeps one entry per key. -/
theorem update_state_merge_witness :
    mergeUpdate.failedSegments = some [⟨1, 2, "b"⟩, ⟨3, 4, "c"⟩] ∧
    (updateState (some exState) mergeUpdate "t1").failedSegments =
      some (dedupeByKey ([⟨1, 2, "a"⟩] ++ [⟨1, 2, "b"⟩, ⟨3, 4, "c"⟩])) ∧
    dedupeByKey ([⟨1, 2, "a"⟩] ++ [⟨1, 2, "b"⟩, ⟨3, 4, "c"⟩]) =
      [⟨1, 2, "a"⟩, ⟨3, 4, "c"⟩] ∧
    ((dedupeByKey ([⟨1, 2, "a"⟩] ++ [⟨1, 2, "b"⟩, ⟨3, 4, "c"⟩])).map segKey).Nodup := by
  have h := (update_state_failed_segment_merge (some exState) mergeUpdate "t1").2.2.2
    [⟨1, 2, "b"⟩, ⟨3, 4, "c"⟩] [⟨1, 2, "a"⟩] rfl (by decide) rfl (by decide)
  exact ⟨rfl, h.1, by decide, h.2.2⟩

/-- Claim C5: the success-path state write of `processBlockRangeForNetwork`
(performed whenever collection returned, failed segments recorded or not)
sets the stored `lastProcessedBlock` to `endBlock`; the catch-path write
passes no `lastProcessedBlock` key, so the stored value — present or absent
— is unchanged. -/
theorem watermark_advances_only_on_completed_run
    (existing : Option ProcessingState) (endBlock : Nat) (r : CollectResult)
    (msg : String) (errorCount : Nat) (now : String) :
    (processRunStateWrite existing endBlock (Except.ok r) errorCount
        now).lastProcessedBlock = some endBlock ∧
    (processRunStateWrite existing endBlock (Except.error msg) errorCount
        now).lastProcessedBlock = existing.bind (·.lastProcessedBlock) :=
  ⟨rfl, rfl⟩

/-! ## Feed-manager lemmas and claims -/

theorem dateDesc_total (a b : FeedItem) : dateDesc a b = true ∨ dateDesc b a = true := by
  simp only [dateDesc, decide_eq_true_eq]
  exact (le_total b.date a.date).imp id id

theorem dateDesc_trans (a b c : FeedItem) :
    dateDesc a b = true → dateDesc b c = true → dateDesc a c = true := by
  simp only [dateDesc, decide_eq_true_eq]
  intro h1 h2
  exact le_trans h2 h1

theorem generate_sorted (st : FeedState) :
    (generate st).Pairwise (fun a b => dateDesc a b = true) :=
  pairwise_insertionSort dateDesc dateDesc_total dateDesc_trans st.items

/-- Claim C6: `getEventGuid` is a pure function of the identity tuple
(equal tuples give equal GUIDs, whatever the hash), and `addEvent` is
idempotent per identity: after a first accepted call, a second call with any
event of the same identity tuple changes neither the item list nor the
seen-GUID set, and the first call added exactly one item with that GUID. -/
theorem guid_deterministic_addEvent_idempotent
    (keccak256 : String → String) (dateParse : String → Option Int)
    (st : FeedState) (e1 e2 : RSSEvent)
    (hid : identityOf e1 = identityOf e2)
    (hdate : (parseEventDate dateParse e1.timestamp).isSome) :
    getEventGuid keccak256 (identityOf e1) = getEventGuid keccak256 (identityOf e2) ∧
    addEvent keccak256 dateParse (addEvent keccak256 dateParse st e1) e2 =
      addEvent keccak256 dateParse st e1 ∧
    (getEventGuid keccak256 (identityOf e1) ∉ st.seenGuids →
      ((addEvent keccak256 dateParse st e1).items.filter
          (fun it => it.guid == getEventGuid keccak256 (identityOf e1))).length =
        (st.items.filter
          (fun it => it.guid == getEventGuid keccak256 (identityOf e1))).length + 1) := by
  have hg : getEventGuid keccak256 (identityOf e2) =
      getEventGuid keccak256 (identityOf e1) := by rw [hid]
  obtain ⟨d, hd⟩ := Option.isSome_iff_exists.mp hdate
  refine ⟨hg.symm, ?_, ?_⟩
  · by_cases hseen : getEventGuid keccak256 (identityOf e1) ∈ st.seenGuids
    · have h1 : addEvent keccak256 dateParse st e1 = st := by
        simp [addEvent, hd, hseen]
      rw [h1]
      cases he2 : parseEventDate dateParse e2.timestamp with
      | none => simp [addEvent, he2]
      | some d2 => simp [addEvent, he2, hg, hseen]
    · have h1 : addEvent keccak256 dateParse st e1 =
        { seenGuids := st.seenGuids ++ [getEventGuid keccak256 (identityOf e1)]
          items := st.items ++
            [feedItemOf e1 d (getEventGuid keccak256 (identityOf e1))] } := by
        simp [addEvent, hd, hseen]
      rw [h1]
      cases he2 : parseEventDate dateParse e2.timestamp with
      | none => simp [addEvent, he2]
      | some d2 =>
        have hmem : getEventGuid keccak256 (identityOf e1) ∈
            st.seenGuids ++ [getEventGuid keccak256 (identityOf e1)] :=
          List.mem_append.mpr (Or.inr (List.mem_singleton_self _))
        simp [addEvent, he2, hg, hmem]
  · intro hseen
    have h1 : addEvent keccak256 dateParse st e1 =
      { seenGuids := st.seenGuids ++ [getEventGuid keccak256 (identityOf e1)]
        items := st.items ++
          [feedItemOf e1 d (getEventGuid keccak256 (identityOf e1))] } := by
      simp [addEvent, hd, hseen]
    rw [h1]
    simp [List.filter_append, feedItemOf]

/-- Witness for C6: adding the same governance event twice (identical
identity tuple, different timestamp field) leaves one item. -/
theorem add_event_idempotent_witness :
    identityOf evA = identityOf evA2 ∧
    (parseEventDate noDateParse evA.timestamp).isSome ∧
    addEvent hashId noDateParse (addEvent hashId noDateParse emptyFeed evA) evA2 =
      addEvent hashId noDateParse emptyFeed evA ∧
    ((addEvent hashId noDateParse emptyFeed evA).items.filter
        (fun it => it.guid == getEventGuid hashId (identityOf evA))).length = 1 := by
  have h := guid_deterministic_addEvent_idempotent hashId noDateParse emptyFeed
    evA evA2 (by decide) (by rfl)
  refine ⟨by decide, rfl, h.2.1, ?_⟩
  have h3 := h.2.2 (by decide)
  simpa using h3

/-- Claim C7: after any completed `updateRSSFeed` call the main item list
holds at most `ARCHIVE_ITEM_THRESHOLD` items; the generated order is
newest-first; and when the pre-call count exceeds the threshold, the
archived items are exactly the positions beyond the threshold of the
newest-first sorted list, while the newest `threshold` items are kept. -/
theorem update_feed_threshold_invariant (threshold : Nat) (uploadOk : Bool)
    (st : FeedState) :
    (updateRSSFeed threshold uploadOk st).1.items.length ≤ threshold ∧
    (generate st).Pairwise (fun a b => dateDesc a b = true) ∧
    (threshold < st.items.length →
      (updateRSSFeed threshold uploadOk st).2 = some ((generate st).drop threshold) ∧
      (updateRSSFeed threshold uploadOk st).1.items = (generate st).take threshold ∧
      (generate st).take threshold ++ (generate st).drop threshold = generate st ∧
      List.Perm (generate st) st.items) := by
  have hlen : (generate st).length = st.items.length :=
    length_insertionSort dateDesc st.items
  refine ⟨?_, generate_sorted st, ?_⟩
  · simp only [updateRSSFeed]
    by_cases harch : threshold < (generate st).length
    · rw [if_pos harch]
      simp [List.length_take]
    · rw [if_neg harch]
      cases uploadOk
      · simpa using by omega
      · simpa using by omega
  · intro hover
    have harch : threshold < (generate st).length := by omega
    simp only [updateRSSFeed]
    rw [if_pos harch]
    exact ⟨rfl, rfl, List.take_append_drop threshold (generate st),
      insertionSort_perm dateDesc st.items⟩

/-- Witness for C7: with threshold 1 and two items, the newer item is kept
and the older one is archived. -/
theorem update_feed_threshold_witness :
    1 < twoItemFeed.items.length ∧
    (updateRSSFeed 1 true twoItemFeed).2 = some ((generate twoItemFeed).drop 1) ∧
    (updateRSSFeed 1 true twoItemFeed).1.items = (generate twoItemFeed).take 1 ∧
    (updateRSSFeed 1 true twoItemFeed).1.items = [itemNew] ∧
    (updateRSSFeed 1 true twoItemFeed).2 = some [itemOld] := by
  have h := (update_feed_threshold_invariant 1 true twoItemFeed).2.2 (by decide)
  exact ⟨by decide, h.1, h.2.1, by decide, by decide⟩

/-- Claim C9 counterexample: adding an earlier event and then a later one
leaves the in-memory item list in insertion order — ascending timestamps —
so `addEvent` does not keep the list sorted by timestamp descending. -/
theorem add_event_not_kept_sorted_counterexample :
    feedAfterAB.items.map (·.date) = [100000, 200000] ∧
    ¬ feedAfterAB.items.Pairwise (fun a b => dateDesc a b = true) :=
  ⟨by decide, by decide⟩

/-- Claim C9 (amended): `addEvent` appends an accepted event at the end of
the in-memory list (insertion order; block number is never consulted);
newest-first ordering is established by `generate`, whose output is sorted
by timestamp descending with ties left in insertion order — in particular an
accepted event with timestamp `"1700000050"` (parsed as Unix seconds to
1700000050000 ms) sorts before one with `"1700000000"` in the generated
feed. -/
theorem feed_append_and_generate_sorted
    (keccak256 : String → String) (dateParse : String → Option Int)
    (st : FeedState) (e : RSSEvent) (d : Int)
    (hd : parseEventDate dateParse e.timestamp = some d)
    (hnew : getEventGuid keccak256 (identityOf e) ∉ st.seenGuids) :
    (addEvent keccak256 dateParse st e).items =
      st.items ++ [feedItemOf e d (getEventGuid keccak256 (identityOf e))] ∧
    (generate st).Pairwise (fun a b => dateDesc a b = true) ∧
    parseEventDate dateParse (TimestampValue.str "1700000050") = some 1700000050000 ∧
    parseEventDate dateParse (TimestampValue.str "1700000000") = some 1700000000000 := by
  refine ⟨by simp [addEvent, hd, hnew], generate_sorted st, rfl, rfl⟩

/-- Witness for C9's amended theorem: a concrete accepted event is appended
at the end of the fresh feed's item list. -/
theorem feed_append_witness :
    parseEventDate noDateParse evA.timestamp = some 100000 ∧
    getEventGuid hashId (identityOf evA) ∉ emptyFeed.seenGuids ∧
    (addEvent hashId noDateParse emptyFeed evA).items =
      emptyFeed.items ++ [feedItemOf evA 100000 (getEventGuid hashId (identityOf evA))] := by
  refine ⟨rfl, by decide, ?_⟩
  exact (feed_append_and_generate_sorted hashId noDateParse emptyFeed evA 100000
    rfl (by decide)).1

/-- Claim C10: an empty or whitespace-only timestamp string is not rejected:
JS `Number("")` is 0, so `parseEventDate` returns the epoch (0 ms,
1970-01-01T00:00:00Z) and `addEvent` inserts the event dated at epoch 0
instead of dropping it with a diagnostic. -/
theorem empty_timestamp_inserts_epoch_event (dateParse : String → Option Int) :
    parseEventDate dateParse (TimestampValue.str "") = some 0 ∧
    parseEventDate dateParse (TimestampValue.str " ") = some 0 ∧
    ∀ (keccak256 : String → String) (st : FeedState) (e : RSSEvent),
      e.timestamp = TimestampValue.str "" →
      getEventGuid keccak256 (identityOf e) ∉ st.seenGuids →
      (addEvent keccak256 dateParse st e).items =
        st.items ++ [feedItemOf e 0 (getEventGuid keccak256 (identityOf e))] := by
  refine ⟨rfl, rfl, ?_⟩
  intro keccak256 st e hts hnew
  have hd : parseEventDate dateParse e.timestamp = some 0 := by
    rw [hts]
    rfl
  simp [addEvent, hd, hnew]

/-- Witness for C10: the concrete empty-timestamp event is inserted dated at
epoch 0. -/
theorem empty_timestamp_witness :
    evEmptyTs.timestamp = TimestampValue.str "" ∧
    getEventGuid hashId (identityOf evEmptyTs) ∉ emptyFeed.seenGuids ∧
    (addEvent hashId noDateParse emptyFeed evEmptyTs).items =
      emptyFeed.items ++
        [feedItemOf evEmptyTs 0 (getEventGuid hashId (identityOf evEmptyTs))] := by
  refine ⟨rfl, by decide, ?_⟩
  exact (empty_timestamp_inserts_epoch_event noDateParse).2.2 hashId emptyFeed
    evEmptyTs rfl (by decide)

end ZksyncRss
